import Mathlib

/-!
Verification of the mini-excel spreadsheet evaluator (Rust sources
`src/scanning/mod.rs`, `src/parsing/mod.rs`, `src/main.rs`) against its
natural-language specification.  The Rust code is shallowly embedded:

* `f32` values are modelled by `MFloat`, an exact arithmetic model: finite
  values are unnormalized fractions (integer numerator, positive natural
  denominator) and the IEEE-754 special values `inf`/`-inf`/`NaN` are explicit
  constructors.  This model agrees with binary32 wherever every intermediate
  result is exactly representable (in the claims below all finite values are
  small integers).  Rounding and signed zeros are not modelled.
* strings are processed at the character-list level, mirroring the Rust
  scanner's character loop;
* the recursion through formula references (which the Rust code bounds only by
  the call stack) is made total with a fuel parameter; running out of fuel is
  the distinguished error `fuelOut`, never produced on the inputs used here;
* panics (`panic!`, `todo!`, `unwrap` failures) are modelled as values of the
  error types `LexErr`, `ParseErr`, `EvalErr`;
* the nondeterministic RNG behind `random`/`randbetween` is an oracle
  `rng : Nat → MFloat` consumed with a counter.
-/

namespace MiniExcel

instance {ε α : Type} [DecidableEq ε] [DecidableEq α] : DecidableEq (Except ε α) := fun a b =>
  match a, b with
  | .ok x, .ok y => if h : x = y then .isTrue (by rw [h]) else .isFalse (by simp [h])
  | .error x, .error y => if h : x = y then .isTrue (by rw [h]) else .isFalse (by simp [h])
  | .ok _, .error _ => .isFalse (by simp)
  | .error _, .ok _ => .isFalse (by simp)

/-- Exact model of Rust `f32` values: unnormalized fractions plus the IEEE
special values.  `finite n d` denotes the real number `n / d` (with `d > 0`
for every value actually constructed). -/
inductive MFloat where
  | finite (num : Int) (den : Nat)
  | inf (negSign : Bool)
  | nan
deriving DecidableEq, Repr

/-- Model of `f32` addition (exact: no rounding). -/
def MFloat.add : MFloat → MFloat → MFloat
  | finite a b, finite c d => finite (a * d + c * b) (b * d)
  | finite _ _, inf s => inf s
  | inf s, finite _ _ => inf s
  | inf s, inf t => if s = t then inf s else nan
  | _, _ => nan

/-- Model of `f32` subtraction (exact: no rounding). -/
def MFloat.sub : MFloat → MFloat → MFloat
  | finite a b, finite c d => finite (a * d - c * b) (b * d)
  | finite _ _, inf s => inf (!s)
  | inf s, finite _ _ => inf s
  | inf s, inf t => if s = t then nan else inf s
  | _, _ => nan

/-- Model of `f32` multiplication (exact: no rounding). -/
def MFloat.mul : MFloat → MFloat → MFloat
  | finite a b, finite c d => finite (a * c) (b * d)
  | finite a _, inf s => if a = 0 then nan else inf ((decide (a < 0)) != s)
  | inf s, finite c _ => if c = 0 then nan else inf (s != (decide (c < 0)))
  | inf s, inf t => inf (s != t)
  | _, _ => nan

/-- Model of `f32` division: a nonzero finite value divided by zero is a
signed infinity and `0/0` is `NaN`, exactly as in IEEE 754. -/
def MFloat.div : MFloat → MFloat → MFloat
  | finite a b, finite c d =>
      if c = 0 then (if a = 0 then nan else inf (decide (a < 0)))
      else finite (if c < 0 then -(a * d) else a * d) (b * c.natAbs)
  | finite _ _, inf _ => finite 0 1
  | inf s, finite c _ => inf (s != (decide (c < 0)))
  | inf _, inf _ => nan
  | _, _ => nan

/-- Model of `f32` negation. -/
def MFloat.neg : MFloat → MFloat
  | finite a b => finite (-a) b
  | inf s => inf (!s)
  | nan => nan

/-- Model of the IEEE `>` comparison (`NaN` compares false). -/
def MFloat.gtb : MFloat → MFloat → Bool
  | nan, _ => false
  | _, nan => false
  | finite a b, finite c d => decide (c * (b : Int) < a * (d : Int))
  | finite _ _, inf s => s
  | inf s, finite _ _ => !s
  | inf s, inf t => !s && t

/-- Model of the IEEE `<` comparison (`NaN` compares false). -/
def MFloat.ltb (x y : MFloat) : Bool := MFloat.gtb y x

/-- Model of the IEEE `>=` comparison (`NaN` compares false). -/
def MFloat.geb : MFloat → MFloat → Bool
  | nan, _ => false
  | _, nan => false
  | x, y => !(MFloat.ltb x y)

/-- Model of the IEEE `!=` comparison (true whenever `NaN` is involved). -/
def MFloat.neb : MFloat → MFloat → Bool
  | nan, _ => true
  | _, nan => true
  | finite a b, finite c d => decide (a * (d : Int) ≠ c * (b : Int))
  | inf s, inf t => s != t
  | _, _ => true

/-- Mirrors `CellIndex` from `scanning/mod.rs` (fields `row`, `column`). -/
structure CellIndex where
  row : Nat
  column : Nat
deriving DecidableEq, Repr

/-- Mirrors the derived lexicographic `Ord` on the Rust `CellIndex`
(row first, then column), as a boolean `≤`. -/
def CellIndex.leb (a b : CellIndex) : Bool :=
  decide (a.row < b.row) || (decide (a.row = b.row) && decide (a.column ≤ b.column))

/-- Mirrors `LiteralValue` from `scanning/mod.rs`. -/
inductive LiteralValue where
  | float (value : MFloat)
  | cellRef (index : CellIndex)
deriving DecidableEq, Repr

/-- Mirrors `TokenType` from `scanning/mod.rs`. -/
inductive TokenType where
  | number
  | plus
  | minus
  | star
  | slash
  | openingParenthese
  | closingParenthese
  | cellRef
  | function
  | comma
deriving DecidableEq, Repr

/-- Mirrors `Token` from `scanning/mod.rs` (`r#type`, `lexeme`, `literal`). -/
structure Token where
  ttype : TokenType
  lexeme : String
  literal : Option LiteralValue
deriving DecidableEq, Repr

/-- Mirrors the `FUNCTIONS` constant from `scanning/mod.rs`. -/
def FUNCTIONS : List String :=
  ["random", "randbetween", "sum", "average", "max", "min", "if", "vlookup", "concatenate"]

/-- Mirrors `Tokenizer::is_alpha` (ASCII letters only). -/
def isAlphaChar (c : Char) : Bool :=
  (decide (97 ≤ c.toNat) && decide (c.toNat ≤ 122)) ||
    (decide (65 ≤ c.toNat) && decide (c.toNat ≤ 90))

/-- Mirrors `Tokenizer::is_number` (ASCII digits). -/
def isNumberChar (c : Char) : Bool :=
  decide (48 ≤ c.toNat) && decide (c.toNat ≤ 57)

/-- ASCII lower-casing of one character, mirroring `to_ascii_lowercase`. -/
def toLowerChar (c : Char) : Char :=
  if 65 ≤ c.toNat ∧ c.toNat ≤ 90 then Char.ofNat (c.toNat + 32) else c

/-- ASCII upper-casing of one character; on the scanner's ASCII-letter inputs
this coincides with Rust `str::to_uppercase`. -/
def toUpperChar (c : Char) : Char :=
  if 97 ≤ c.toNat ∧ c.toNat ≤ 122 then Char.ofNat (c.toNat - 32) else c

/-- Base-10 value of a digit run, mirroring `str::parse::<usize>` on the
digit part of a cell-reference lexeme. -/
def digitsVal (l : List Char) : Nat :=
  l.foldl (fun a c => a * 10 + (c.toNat - 48)) 0

/-- Mirrors `CellRef::text_to_number` from `parsing/mod.rs`: upper-case the
label, fold `sum = sum * 26 + (char - 'A' + 1)`, and subtract one.  (The
truncated `Nat` subtraction on the empty string corresponds to the `usize`
underflow panic in Rust; the scanner never passes an empty label.) -/
def text_to_number (s : String) : Nat :=
  (s.data.foldl (fun sum c => sum * 26 + ((toUpperChar c).toNat - 65 + 1)) 0) - 1

/-- Loop body of `CellRef::number_to_text`.  The Rust code computes with
`f32`; this is the exact-arithmetic rendering (`ceil (f / 26) = (f + 25) / 26`
on naturals), which agrees with the `f32` computation on all small values
(the `f32` arithmetic is exact below 2^24 up to the quotient granularity). -/
def numberToTextGo : Nat → Nat → List Char → List Char
  | 0, _, acc => acc
  | fuel + 1, f, acc =>
    let c := f % 26
    let acc2 := Char.ofNat ((if c = 0 then 26 else c) + 64) :: acc
    if f ≤ 26 then acc2
    else numberToTextGo fuel ((f + 25) / 26 - 1) acc2

/-- Mirrors `CellRef::number_to_text` from `parsing/mod.rs`. -/
def number_to_text (column : Nat) : String :=
  String.mk (numberToTextGo (column + 1) column [])

/-- Lexical errors: the `panic!` sites of `Tokenizer` in `scanning/mod.rs`. -/
inductive LexErr where
  | unknownToken (lexeme : String)
  | invalidNumber (lexeme : String)
  | invalidCellRef (lexeme : String)
deriving DecidableEq, Repr

/-- Character-level scanner, mirroring `Tokenizer::scan_token` together with
its helpers `number` and `string`.  The fuel argument only makes the
recursion structural; every step consumes at least one character, so
`length + 1` fuel (as supplied by `tokenize`) always suffices. -/
def scanTokens : Nat → List Char → Except LexErr (List Token)
  | 0, _ => .error (.unknownToken "")
  | _ + 1, [] => .ok []
  | fuel + 1, c :: cs =>
    if c = '\n' ∨ c = ' ' ∨ c = '\t' then scanTokens fuel cs
    else if c = '(' then
      (scanTokens fuel cs).map (Token.mk .openingParenthese "(" none :: ·)
    else if c = ')' then
      (scanTokens fuel cs).map (Token.mk .closingParenthese ")" none :: ·)
    else if c = '+' then
      (scanTokens fuel cs).map (Token.mk .plus "+" none :: ·)
    else if c = '-' then
      (scanTokens fuel cs).map (Token.mk .minus "-" none :: ·)
    else if c = '*' then
      (scanTokens fuel cs).map (Token.mk .star "*" none :: ·)
    else if c = '/' then
      (scanTokens fuel cs).map (Token.mk .slash "/" none :: ·)
    else if c = ',' then
      (scanTokens fuel cs).map (Token.mk .comma "," none :: ·)
    else if isNumberChar c then
      let ds := c :: cs.takeWhile isNumberChar
      let r1 := cs.dropWhile isNumberChar
      match r1 with
      | '.' :: r2 =>
        match r2 with
        | [] => .error (.invalidNumber (String.mk (ds ++ ['.'])))
        | d2 :: _ =>
          if isNumberChar d2 then
            let fs := r2.takeWhile isNumberChar
            let lex := ds ++ '.' :: fs
            (scanTokens fuel (r2.dropWhile isNumberChar)).map
              (Token.mk .number (String.mk lex)
                (some (.float (.finite (digitsVal ds * 10 ^ fs.length + digitsVal fs)
                  (10 ^ fs.length)))) :: ·)
          else .error (.invalidNumber (String.mk (ds ++ ['.', d2])))
      | _ =>
        (scanTokens fuel r1).map
          (Token.mk .number (String.mk ds) (some (.float (.finite (digitsVal ds) 1))) :: ·)
    else if isAlphaChar c then
      let run := c :: cs.takeWhile isAlphaChar
      let r1 := cs.dropWhile isAlphaChar
      let endsWithNumber := match r1 with
        | d :: _ => isNumberChar d
        | [] => false
      let digits := r1.takeWhile isNumberChar
      let lex := run ++ digits
      let isFunc := decide (String.mk (lex.map toLowerChar) ∈ FUNCTIONS)
      if !endsWithNumber && !isFunc then .error (.invalidCellRef (String.mk lex))
      else if isFunc then
        (scanTokens fuel (r1.dropWhile isNumberChar)).map
          (Token.mk .function (String.mk lex) none :: ·)
      else
        (scanTokens fuel (r1.dropWhile isNumberChar)).map
          (Token.mk .cellRef (String.mk lex)
            (some (.cellRef ⟨text_to_number (String.mk run), digitsVal digits⟩)) :: ·)
    else .error (.unknownToken (String.mk [c]))

/-- Mirrors `Tokenizer::new(..).get_tokens()`: scan a whole formula text. -/
def tokenize (s : String) : Except LexErr (List Token) :=
  scanTokens (s.data.length + 1) s.data

/-- Mirrors the expression-node hierarchy of `parsing/mod.rs`
(`Binary`, `Unary`, `FnExpression`, `Literal`, `CellRef`, `Group`). -/
inductive Expr where
  | binary (left : Expr) (op : Token) (right : Expr)
  | unary (op : Token) (operand : Expr)
  | fnExpression (name : String) (params : List Expr)
  | literal (tok : Token)
  | cellRefE (tok : Token)
  | group (inner : Expr)

/-- Parse errors: the `panic!` sites of `Parser` in `parsing/mod.rs`
(`emptyTokens` is the index panic of `consume` on an empty token vector,
`fuelOut` is a model artifact that ample fuel never reaches). -/
inductive ParseErr where
  | invalidExpression (lexeme : String)
  | expectedClosingParenthese
  | expectedOpeningParenthese
  | emptyTokens
  | fuelOut
deriving DecidableEq, Repr

/-- Mirrors `Parser::next_token_is`. -/
def nextTokenIs (ts : List Token) (types : List TokenType) : Bool :=
  match ts with
  | [] => false
  | t :: _ => types.contains t.ttype

mutual

/-- Mirrors `Parser::expression`. -/
def parseExpression : Nat → List Token → Except ParseErr (Expr × List Token)
  | 0, _ => .error .fuelOut
  | fuel + 1, ts => parseTerm fuel ts

/-- Mirrors `Parser::term`. -/
def parseTerm : Nat → List Token → Except ParseErr (Expr × List Token)
  | 0, _ => .error .fuelOut
  | fuel + 1, ts =>
    match parseFactor fuel ts with
    | .error e => .error e
    | .ok (e1, ts1) => parseTermLoop fuel e1 ts1

/-- Mirrors the `while` loop of `Parser::term` (left-associative `+`/`-`). -/
def parseTermLoop : Nat → Expr → List Token → Except ParseErr (Expr × List Token)
  | 0, _, _ => .error .fuelOut
  | fuel + 1, acc, ts =>
    if nextTokenIs ts [.plus, .minus] then
      match ts with
      | op :: ts1 =>
        match parseFactor fuel ts1 with
        | .error e => .error e
        | .ok (r, ts2) => parseTermLoop fuel (.binary acc op r) ts2
      | [] => .error .emptyTokens
    else .ok (acc, ts)

/-- Mirrors `Parser::factor`. -/
def parseFactor : Nat → List Token → Except ParseErr (Expr × List Token)
  | 0, _ => .error .fuelOut
  | fuel + 1, ts =>
    match parseUnary fuel ts with
    | .error e => .error e
    | .ok (e1, ts1) => parseFactorLoop fuel e1 ts1

/-- Mirrors the `while` loop of `Parser::factor` (left-associative `*`/`/`). -/
def parseFactorLoop : Nat → Expr → List Token → Except ParseErr (Expr × List Token)
  | 0, _, _ => .error .fuelOut
  | fuel + 1, acc, ts =>
    if nextTokenIs ts [.star, .slash] then
      match ts with
      | op :: ts1 =>
        match parseUnary fuel ts1 with
        | .error e => .error e
        | .ok (r, ts2) => parseFactorLoop fuel (.binary acc op r) ts2
      | [] => .error .emptyTokens
    else .ok (acc, ts)

/-- Mirrors `Parser::unary`. -/
def parseUnary : Nat → List Token → Except ParseErr (Expr × List Token)
  | 0, _ => .error .fuelOut
  | fuel + 1, ts =>
    if nextTokenIs ts [.plus, .minus] then
      match ts with
      | op :: ts1 =>
        match parseUnary fuel ts1 with
        | .error e => .error e
        | .ok (e1, ts2) => .ok (.unary op e1, ts2)
      | [] => .error .emptyTokens
    else parsePrimary fuel ts

/-- Mirrors `Parser::primary`. -/
def parsePrimary : Nat → List Token → Except ParseErr (Expr × List Token)
  | 0, _ => .error .fuelOut
  | fuel + 1, ts =>
    if nextTokenIs ts [.number] then
      match ts with
      | t :: ts1 => .ok (.literal t, ts1)
      | [] => .error .emptyTokens
    else if nextTokenIs ts [.cellRef] then
      match ts with
      | t :: ts1 => .ok (.cellRefE t, ts1)
      | [] => .error .emptyTokens
    else if nextTokenIs ts [.openingParenthese] then
      match ts with
      | _ :: ts1 =>
        match parseExpression fuel ts1 with
        | .error e => .error e
        | .ok (inner, ts2) =>
          if nextTokenIs ts2 [.closingParenthese] then
            match ts2 with
            | _ :: ts3 => .ok (.group inner, ts3)
            | [] => .error .emptyTokens
          else .error .expectedClosingParenthese
      | [] => .error .emptyTokens
    else if nextTokenIs ts [.function] then
      match ts with
      | t :: ts1 =>
        if nextTokenIs ts1 [.openingParenthese] then
          match ts1 with
          | _ :: ts2 =>
            if nextTokenIs ts2 [.closingParenthese] then
              match ts2 with
              | _ :: ts3 => .ok (.fnExpression t.lexeme [], ts3)
              | [] => .error .emptyTokens
            else
              match parseExpression fuel ts2 with
              | .error e => .error e
              | .ok (p1, ts3) => parseParamsLoop fuel t.lexeme [p1] ts3
          | [] => .error .emptyTokens
        else .error .expectedOpeningParenthese
      | [] => .error .emptyTokens
    else
      match ts with
      | [] => .error .emptyTokens
      | t :: _ => .error (.invalidExpression t.lexeme)

/-- Mirrors the parameter-list loop of `Parser::primary`: while the next
token is not `)`, consume one token (the expected comma) and parse one more
argument expression; finally consume the `)`. -/
def parseParamsLoop : Nat → String → List Expr → List Token →
    Except ParseErr (Expr × List Token)
  | 0, _, _, _ => .error .fuelOut
  | fuel + 1, name, params, ts =>
    if nextTokenIs ts [.closingParenthese] then
      match ts with
      | _ :: ts1 => .ok (.fnExpression name params, ts1)
      | [] => .error .emptyTokens
    else
      match ts with
      | [] => .error .emptyTokens
      | _ :: ts1 =>
        match parseExpression fuel ts1 with
        | .error e => .error e
        | .ok (p, ts2) => parseParamsLoop fuel name (params ++ [p]) ts2

end

/-- Mirrors `Parser::parse` (grammar entry point).  The fuel is ample for any
token list: the descent consumes a grammar level or a token at each step.
Leftover tokens after the top-level expression are ignored, as in the Rust. -/
def parseTokens (ts : List Token) : Except ParseErr (Expr × List Token) :=
  parseExpression (8 * ts.length + 16) ts

/-- Mirrors `Cell` from `parsing/mod.rs`. -/
inductive Cell where
  | value (text : String)
  | expression (text : String)
deriving DecidableEq, Repr

/-- Mirrors the `Table` alias `HashMap<CellIndex, Cell>` as an association
list (later entries shadow earlier ones on lookup). -/
abbrev Table := List (CellIndex × Cell)

/-- Evaluation errors: the `panic!`/`todo!`/`expect` sites of the
`Expression::evaluate` implementations in `parsing/mod.rs`.
`unknownFunction` is the final `_ => todo!("Not all FUNCTIONS are
implemented")` arm of the builtin dispatch, distinct from the explicit
`vlookup`/`concatenate` arms (`notImplemented`). -/
inductive EvalErr where
  | lexical (e : LexErr)
  | parsing (e : ParseErr)
  | unknownCell
  | cycle (path : List CellIndex)
  | arity (name : String)
  | range (name : String)
  | notImplemented (name : String)
  | unknownFunction (name : String)
  | expectedOperator
  | internal
  | fuelOut
deriving DecidableEq, Repr

/-- State threaded through evaluation.  In the Rust code `results` lives
inside the mutable `value_cells` table (formula results are inserted there as
`Cell::Value(f.to_string())` and re-parsed on lookup); since Rust guarantees
`to_string`/`parse` round-trips for `f32`, the model stores the numeric value
directly, keyed by address, and looks it up before the two tables, which is
observationally the same lookup order.  `visiting` is the recursion-guard
path.  `trace` is pure instrumentation that does not exist in the Rust: it
records each address whose formula body gets tokenized/parsed/evaluated, in
order, changing no other behavior.  `rngIdx` counts RNG draws. -/
structure EvalState where
  results : List (CellIndex × MFloat)
  visiting : List CellIndex
  trace : List CellIndex
  rngIdx : Nat
deriving DecidableEq, Repr

/-- Initial (empty) evaluation state. -/
def EvalState.init : EvalState := ⟨[], [], [], 0⟩

/-- Association-list lookup modelling `HashMap::get` on the cell tables. -/
def lookupCell : Table → CellIndex → Option Cell
  | [], _ => none
  | (j, c) :: rest, i => if j = i then some c else lookupCell rest i

/-- Association-list lookup modelling `HashMap::get` on the results store. -/
def lookupResult : List (CellIndex × MFloat) → CellIndex → Option MFloat
  | [], _ => none
  | (j, v) :: rest, i => if j = i then some v else lookupResult rest i

/-- Association-list insert modelling `HashMap::insert` (overwrites). -/
def insertResult (rs : List (CellIndex × MFloat)) (i : CellIndex) (v : MFloat) :
    List (CellIndex × MFloat) :=
  (i, v) :: rs.filter (fun p => decide (p.1 ≠ i))

/-- Mirrors `visiting.remove(visiting.iter().position(|x| *x == i).unwrap())`:
remove the first occurrence of an address from the recursion-guard path. -/
def removeFirst : List CellIndex → CellIndex → List CellIndex
  | [], _ => []
  | x :: xs, i => if x = i then xs else x :: removeFirst xs i

/-- Value of an unsigned plain decimal character run, if well formed. -/
def parseFloatChars (l : List Char) : Option MFloat :=
  let ds := l.takeWhile isNumberChar
  let r1 := l.dropWhile isNumberChar
  match r1 with
  | [] => if ds.isEmpty then none else some (.finite (digitsVal ds) 1)
  | '.' :: fs =>
    if fs.all isNumberChar ∧ ¬(ds.isEmpty ∧ fs.isEmpty) then
      some (.finite (digitsVal ds * 10 ^ fs.length + digitsVal fs) (10 ^ fs.length))
    else none
  | _ => none

/-- Model of Rust `str::parse::<f32>` restricted to plain decimal forms
(optional sign, digits, optional fraction): no exponents, no textual
infinity/NaN, and no rounding.  Every cell text whose parse the claims
exercise is of this plain form. -/
def parseF32 (s : String) : Option MFloat :=
  match s.data with
  | '-' :: rest => (parseFloatChars rest).map MFloat.neg
  | '+' :: rest => parseFloatChars rest
  | l => parseFloatChars l

mutual

/-- Mirrors the `Expression::evaluate` implementations of `parsing/mod.rs`
(`Binary`, `Unary`, `Group`, `Literal`, `CellRef`, `FnExpression`).  The two
`panic!("Expected numbers ...")` arms of `Binary`/`Unary` and the panics on
function arguments that are not `Float` are dead in the Rust code (every
evaluation returns a `LiteralValue::Float`) and therefore have no
counterpart: the model returns `MFloat` directly.  The `fuel` argument makes
the recursion through referenced formula cells structural. -/
def evaluate (rng : Nat → MFloat) (exprCells valueCells : Table) :
    Nat → Expr → EvalState → Except EvalErr (MFloat × EvalState)
  | 0, _, _ => .error .fuelOut
  | fuel + 1, e, st =>
    match e with
    | .binary l op r =>
      match evaluate rng exprCells valueCells fuel l st with
      | .error err => .error err
      | .ok (v1, st1) =>
        match evaluate rng exprCells valueCells fuel r st1 with
        | .error err => .error err
        | .ok (v2, st2) =>
          match op.ttype with
          | .plus => .ok (MFloat.add v1 v2, st2)
          | .minus => .ok (MFloat.sub v1 v2, st2)
          | .star => .ok (MFloat.mul v1 v2, st2)
          | .slash => .ok (MFloat.div v1 v2, st2)
          | _ => .error .expectedOperator
    | .unary op inner =>
      match evaluate rng exprCells valueCells fuel inner st with
      | .error err => .error err
      | .ok (v, st1) =>
        match op.ttype with
        | .plus => .ok (v, st1)
        | .minus => .ok (MFloat.neg v, st1)
        | _ => .error .expectedOperator
    | .group inner => evaluate rng exprCells valueCells fuel inner st
    | .literal tok =>
      match tok.ttype, tok.literal with
      | .number, some (.float v) => .ok (v, st)
      | _, _ => .error .internal
    | .cellRefE tok =>
      match tok.literal with
      | some (.cellRef cellIndex) =>
        match lookupResult st.results cellIndex with
        | some v => .ok (v, st)
        | none =>
          match lookupCell valueCells cellIndex with
          | some (Cell.value text) => .ok ((parseF32 text).getD (.finite 0 1), st)
          | some (Cell.expression etext) =>
            evalFormulaCell rng exprCells valueCells fuel cellIndex etext st
          | none =>
            match lookupCell exprCells cellIndex with
            | some (Cell.value text) => .ok ((parseF32 text).getD (.finite 0 1), st)
            | some (Cell.expression etext) =>
              evalFormulaCell rng exprCells valueCells fuel cellIndex etext st
            | none => .error .unknownCell
      | _ => .error .internal
    | .fnExpression name params =>
      match name with
      | "random" =>
        if params.isEmpty then .ok (rng st.rngIdx, { st with rngIdx := st.rngIdx + 1 })
        else .error (.arity "random")
      | "randbetween" =>
        if params.length ≠ 2 then .error (.arity "randbetween")
        else
          match evalParams rng exprCells valueCells fuel params st with
          | .error err => .error err
          | .ok ([n1, n2], st1) =>
            if MFloat.geb n1 n2 then .error (.range "randbetween")
            else .ok (rng st1.rngIdx, { st1 with rngIdx := st1.rngIdx + 1 })
          | .ok (_, _) => .error .internal
      | "sum" =>
        match evalParams rng exprCells valueCells fuel params st with
        | .error err => .error err
        | .ok (vs, st1) => .ok (vs.foldl MFloat.add (.finite 0 1), st1)
      | "average" =>
        if params.isEmpty then .error (.arity "average")
        else
          match evalParams rng exprCells valueCells fuel params st with
          | .error err => .error err
          | .ok (vs, st1) =>
            .ok (MFloat.div (vs.foldl MFloat.add (.finite 0 1))
              (.finite (params.length : Int) 1), st1)
      | "max" =>
        if params.isEmpty then .error (.arity "max")
        else
          match evalParams rng exprCells valueCells fuel params st with
          | .error err => .error err
          | .ok (v0 :: vrest, st1) =>
            .ok (vrest.foldl (fun m n => if MFloat.gtb n m then n else m) v0, st1)
          | .ok ([], _) => .error .internal
      | "min" =>
        if params.isEmpty then .error (.arity "min")
        else
          match evalParams rng exprCells valueCells fuel params st with
          | .error err => .error err
          | .ok (v0 :: vrest, st1) =>
            .ok (vrest.foldl (fun m n => if MFloat.ltb n m then n else m) v0, st1)
          | .ok ([], _) => .error .internal
      | "if" =>
        if params.length ≠ 3 then .error (.arity "if")
        else
          match evalParams rng exprCells valueCells fuel params st with
          | .error err => .error err
          | .ok ([c1, c2, c3], st1) =>
            .ok (if MFloat.neb c1 (.finite 0 1) then c2 else c3, st1)
          | .ok (_, _) => .error .internal
      | "vlookup" => .error (.notImplemented "vlookup")
      | "concatenate" => .error (.notImplemented "concatenate")
      | _ => .error (.unknownFunction name)

/-- Mirrors the `Cell::Expression` arm of `CellRef::evaluate`: cycle check
against the recursion-guard path, push the address, tokenize and parse the
formula text fresh, evaluate it with the same cache and path, remove the
address from the path, memoize the result, and return it. -/
def evalFormulaCell (rng : Nat → MFloat) (exprCells valueCells : Table) :
    Nat → CellIndex → String → EvalState → Except EvalErr (MFloat × EvalState)
  | 0, _, _, _ => .error .fuelOut
  | fuel + 1, cellIndex, etext, st =>
    if cellIndex ∈ st.visiting then
      .error (.cycle (st.visiting ++ [st.visiting.headD cellIndex]))
    else
      match tokenize etext with
      | .error e => .error (.lexical e)
      | .ok ts =>
        match parseTokens ts with
        | .error e => .error (.parsing e)
        | .ok (ast, _) =>
          match evaluate rng exprCells valueCells fuel ast
              { st with visiting := st.visiting ++ [cellIndex],
                        trace := st.trace ++ [cellIndex] } with
          | .error err => .error err
          | .ok (v, st1) =>
            .ok (v, { st1 with visiting := removeFirst st1.visiting cellIndex,
                               results := insertResult st1.results cellIndex v })

/-- Left-to-right evaluation of a function's argument list, mirroring the
`self.1.remove(0).evaluate(..)` loops of `FnExpression::evaluate` (the Rust
code interleaves each evaluation with the pure fold step; evaluating all
arguments first in the same order is observationally identical). -/
def evalParams (rng : Nat → MFloat) (exprCells valueCells : Table) :
    Nat → List Expr → EvalState → Except EvalErr (List MFloat × EvalState)
  | 0, _, _ => .error .fuelOut
  | _ + 1, [], st => .ok ([], st)
  | fuel + 1, p :: ps, st =>
    match evaluate rng exprCells valueCells fuel p st with
    | .error err => .error err
    | .ok (v, st1) =>
      match evalParams rng exprCells valueCells fuel ps st1 with
      | .error err => .error err
      | .ok (vs, st2) => .ok (v :: vs, st2)

end

/-- RNG oracle used for runs whose claims do not involve randomness. -/
def rngZero : Nat → MFloat := fun _ => .finite 0 1

/-- Scan, parse and evaluate one formula text against empty tables, as
`parse_file` does for a formula cell that references no other cell. -/
def evalFormula (src : String) : Except EvalErr MFloat :=
  match tokenize src with
  | .error e => .error (.lexical e)
  | .ok ts =>
    match parseTokens ts with
    | .error e => .error (.parsing e)
    | .ok (ast, _) =>
      match evaluate rngZero [] [] 64 ast EvalState.init with
      | .error err => .error err
      | .ok (v, _) => .ok v

/-- Mirrors Rust `str::split(sep)` on a character list (keeps empty pieces,
always yields at least one piece). -/
def splitChar (sep : Char) : List Char → List (List Char)
  | [] => [[]]
  | c :: rest =>
    let r := splitChar sep rest
    if c = sep then [] :: r
    else
      match r with
      | g :: gs => (c :: g) :: gs
      | [] => [[c]]

/-- Mirrors the inner classification loop of `Parser::parse_file`: split one
line on `|` and file each cell into the formula table (leading `=` stripped)
or the value table. -/
def classifyCells (row : Nat) : Nat → List (List Char) → Table × Table
  | _, [] => ([], [])
  | column, cell :: rest =>
    let r := classifyCells row (column + 1) rest
    match cell with
    | '=' :: content => ((⟨row, column⟩, Cell.expression (String.mk content)) :: r.1, r.2)
    | _ => (r.1, (⟨row, column⟩, Cell.value (String.mk cell)) :: r.2)

/-- Mirrors the outer classification loop of `Parser::parse_file` over the
lines of the input. -/
def classifyRows : Nat → List (List Char) → Table × Table
  | _, [] => ([], [])
  | row, line :: rest =>
    let h := classifyCells row 0 (splitChar '|' line)
    let t := classifyRows (row + 1) rest
    (h.1 ++ t.1, h.2 ++ t.2)

/-- Grid assembly of `Parser::parse_file`: split the input into rows on
newlines and cells on `|`, producing `(expr_cells, value_cells)`.  The
association lists are in row-major construction order; the Rust `HashMap`
imposes no order, which matters only for the bulk-pass iteration (made
explicit below via the `order` argument of `evalPass`). -/
def assemble (content : String) : Table × Table :=
  classifyRows 0 (splitChar '\n' content.data)

/-- Bulk evaluation loop of `Parser::parse_file`: for each formula cell of
the iteration (in the order given, since the Rust `HashMap` iteration order
is unspecified), tokenize, parse and evaluate its body with a fresh empty
recursion-guard path (`&mut vec![]`) and insert the result, overwriting any
value already memoized for that address. -/
def evalPass (rng : Nat → MFloat) (exprCells valueCells : Table) (fuel : Nat) :
    List (CellIndex × Cell) → EvalState → Except EvalErr EvalState
  | [], st => .ok st
  | (cellIndex, cell) :: rest, st =>
    match cell with
    | Cell.value _ => evalPass rng exprCells valueCells fuel rest st
    | Cell.expression etext =>
      match tokenize etext with
      | .error e => .error (.lexical e)
      | .ok ts =>
        match parseTokens ts with
        | .error e => .error (.parsing e)
        | .ok (ast, _) =>
          match evaluate rng exprCells valueCells fuel ast
              { st with visiting := [], trace := st.trace ++ [cellIndex] } with
          | .error err => .error err
          | .ok (v, st1) =>
            evalPass rng exprCells valueCells fuel rest
              { st1 with results := insertResult st1.results cellIndex v, visiting := [] }

/-- Renders one `f32` result, mirroring Rust `f32::to_string`.  Exact for
integral and special values — the only ones the claims render; a nonintegral
finite value is shown as a fraction where Rust would print a shortest
decimal. -/
def toStr : MFloat → String
  | .finite n d => if d = 1 then toString n else toString n ++ "/" ++ toString d
  | .inf false => "inf"
  | .inf true => "-inf"
  | .nan => "NaN"

/-- Mirrors `format!("{: <10}", val)`: left-justify, pad to width 10 (longer
text is kept whole). -/
def pad10 (s : String) : String :=
  String.mk (s.data ++ List.replicate (10 - s.data.length) ' ')

/-- Text of a cell as rendered by the output loop of `parse_file` (both arms
pad the raw text the same way). -/
def renderCellText : Cell → String
  | Cell.value text => text
  | Cell.expression text => text

/-- Insertion step for sorting the rendered cells. -/
def insertSorted (p : CellIndex × Cell) : List (CellIndex × Cell) → List (CellIndex × Cell)
  | [] => [p]
  | q :: rest => if CellIndex.leb p.1 q.1 then p :: q :: rest else q :: insertSorted p rest

/-- Mirrors `sorted.sort_by(|a, b| a.0.cmp(b.0))`: sort the cells by address,
row-major. -/
def sortCells (l : List (CellIndex × Cell)) : List (CellIndex × Cell) :=
  l.foldr insertSorted []

/-- Output loop of `parse_file`: emit a newline whenever the row index
changes from `lastLine`, then the width-10 padded cell text followed by
`|`. -/
def renderLoop (lastLine : Nat) : List (CellIndex × Cell) → String
  | [] => ""
  | (cellIndex, cell) :: rest =>
    if cellIndex.row ≠ lastLine then
      "\n" ++ pad10 (renderCellText cell) ++ "|" ++ renderLoop cellIndex.row rest
    else
      pad10 (renderCellText cell) ++ "|" ++ renderLoop lastLine rest

/-- Full rendering of `parse_file`: sorted cells, then one trailing
newline. -/
def renderOutput (cells : List (CellIndex × Cell)) : String :=
  renderLoop 0 (sortCells cells) ++ "\n"

/-- The memoized results as the `Cell::Value(f.to_string())` entries they
occupy in the Rust `value_cells` table at rendering time. -/
def resultCells (rs : List (CellIndex × MFloat)) : Table :=
  rs.map (fun p => (p.1, Cell.value (toStr p.2)))

/-- Mirrors `Parser::parse_file`, parameterized by the bulk-pass iteration
order (the Rust `HashMap` order is unspecified) and returning the final
evaluation state alongside the rendered output. -/
def runFile (rng : Nat → MFloat) (fuel : Nat) (content : String) (order : List (CellIndex × Cell)) :
    Except EvalErr (String × EvalState) :=
  let tables := assemble content
  match evalPass rng tables.1 tables.2 fuel order EvalState.init with
  | .error err => .error err
  | .ok st => .ok (renderOutput (tables.2 ++ resultCells st.results), st)

/-- Mirrors `Parser::parse_file` with the row-major (ascending) iteration
order and ample fuel. -/
def parse_file (content : String) : Except EvalErr String :=
  (runFile rngZero 64 content (assemble content).1).map Prod.fst

/-- Join strings with a separator placed strictly between elements. -/
def joinWith (sep : String) : List String → String
  | [] => ""
  | [s] => s
  | s :: rest => s ++ sep ++ joinWith sep rest

/-- Modelled from the spec: the output format as claim C5 words it — every
field left-justified and padded to width 10, fields SEPARATED by `|`, rows
separated by newline, one trailing newline.  Used only to compare against
the renderer actually implemented by `parse_file`. -/
def claimSeparatorRender (rows : List (List String)) : String :=
  joinWith "\n" (rows.map (fun r => joinWith "|" (r.map pad10))) ++ "\n"

theorem removeFirst_append_self (l : List CellIndex) (i : CellIndex) (h : i ∉ l) :
    removeFirst (l ++ [i]) i = l := by
  induction l with
  | nil => simp [removeFirst]
  | cons x xs ih =>
    simp only [List.mem_cons, not_or] at h
    simp only [List.cons_append, removeFirst, if_neg (Ne.symm h.1)]
    rw [show xs.append [i] = xs ++ [i] from rfl, ih h.2]

theorem lookupResult_insert (rs : List (CellIndex × MFloat)) (i : CellIndex) (v : MFloat) :
    lookupResult (insertResult rs i v) i = some v := by
  simp [insertResult, lookupResult]

theorem evalShape (fuel : Nat) :
    (∀ rng ec vc e st v st2, evaluate rng ec vc fuel e st = .ok (v, st2) →
      st2.visiting = st.visiting ∧ ∃ t, st2.trace = st.trace ++ t)
  ∧ (∀ rng ec vc ci etext st v st2, evalFormulaCell rng ec vc fuel ci etext st = .ok (v, st2) →
      st2.visiting = st.visiting ∧ ∃ t, st2.trace = st.trace ++ t)
  ∧ (∀ rng ec vc ps st vs st2, evalParams rng ec vc fuel ps st = .ok (vs, st2) →
      st2.visiting = st.visiting ∧ ∃ t, st2.trace = st.trace ++ t) := by
  induction fuel with
  | zero =>
    refine ⟨?_, ?_, ?_⟩
    · intro rng ec vc e st v st2 h
      simp [evaluate] at h
    · intro rng ec vc ci etext st v st2 h
      simp [evalFormulaCell] at h
    · intro rng ec vc ps st vs st2 h
      simp [evalParams] at h
  | succ fuel ih =>
    obtain ⟨ihE, ihF, ihP⟩ := ih
    refine ⟨?_, ?_, ?_⟩
    · intro rng ec vc e st v st2 h
      cases e with
      | binary l op r =>
        simp only [evaluate] at h
        split at h
        · cases h
        · rename_i v1 st1 h1
          split at h
          · cases h
          · rename_i v2 stB h2
            obtain ⟨hA, tA, htA⟩ := ihE rng ec vc l st v1 st1 h1
            obtain ⟨hB, tB, htB⟩ := ihE rng ec vc r st1 v2 stB h2
            split at h <;> cases h <;>
              exact ⟨hB.trans hA, tA ++ tB, by rw [htB, htA, List.append_assoc]⟩
      | unary op inner =>
        simp only [evaluate] at h
        split at h
        · cases h
        · rename_i v1 st1 h1
          obtain ⟨hA, tA, htA⟩ := ihE rng ec vc inner st v1 st1 h1
          split at h <;> cases h <;> exact ⟨hA, tA, htA⟩
      | group inner =>
        simp only [evaluate] at h
        exact ihE rng ec vc inner st v st2 h
      | literal tok =>
        simp only [evaluate] at h
        split at h <;> cases h
        exact ⟨rfl, [], by simp⟩
      | cellRefE tok =>
        simp only [evaluate] at h
        split at h
        · split at h
          · cases h
            exact ⟨rfl, [], by simp⟩
          · split at h
            · cases h
              exact ⟨rfl, [], by simp⟩
            · exact ihF rng ec vc _ _ st v st2 h
            · split at h
              · cases h
                exact ⟨rfl, [], by simp⟩
              · exact ihF rng ec vc _ _ st v st2 h
              · cases h
        · cases h
      | fnExpression name params =>
        simp only [evaluate] at h
        split at h
        · -- random
          split at h <;> cases h
          exact ⟨rfl, [], by simp⟩
        · -- randbetween
          split at h
          · cases h
          · split at h
            · cases h
            · rename_i n1 n2 st1 hp
              split at h <;> cases h
              obtain ⟨hA, tA, htA⟩ := ihP rng ec vc params st _ _ hp
              exact ⟨hA, tA, htA⟩
            · cases h
        · -- sum
          split at h
          · cases h
          · rename_i vs st1 hp
            cases h
            exact ihP rng ec vc params st _ _ hp
        · -- average
          split at h
          · cases h
          · split at h
            · cases h
            · rename_i vs st1 hp
              cases h
              exact ihP rng ec vc params st _ _ hp
        · -- max
          split at h
          · cases h
          · split at h
            · cases h
            · rename_i v0 vrest st1 hp
              cases h
              exact ihP rng ec vc params st _ _ hp
            · cases h
        · -- min
          split at h
          · cases h
          · split at h
            · cases h
            · rename_i v0 vrest st1 hp
              cases h
              exact ihP rng ec vc params st _ _ hp
            · cases h
        · -- if
          split at h
          · cases h
          · split at h
            · cases h
            · rename_i c1 c2 c3 st1 hp
              cases h
              exact ihP rng ec vc params st _ _ hp
            · cases h
        · cases h
        · cases h
        · cases h
    · intro rng ec vc ci etext st v st2 h
      simp only [evalFormulaCell] at h
      split at h
      · cases h
      · rename_i hvis
        split at h
        · cases h
        · split at h
          · cases h
          · split at h
            · cases h
            · rename_i v1 st1 h1
              cases h
              obtain ⟨hA, tA, htA⟩ := ihE rng ec vc _ _ _ _ h1
              simp only at hA htA
              refine ⟨?_, [ci] ++ tA, ?_⟩
              · simp only
                rw [hA, removeFirst_append_self st.visiting ci hvis]
              · simp only
                rw [htA, List.append_assoc]
    · intro rng ec vc ps st vs st2 h
      cases ps with
      | nil =>
        simp only [evalParams] at h
        cases h
        exact ⟨rfl, [], by simp⟩
      | cons p rest =>
        simp only [evalParams] at h
        split at h
        · cases h
        · rename_i v1 st1 h1
          split at h
          · cases h
          · rename_i vs1 stB h2
            cases h
            obtain ⟨hA, tA, htA⟩ := ihE rng ec vc p st v1 st1 h1
            obtain ⟨hB, tB, htB⟩ := ihP rng ec vc rest _ _ _ h2
            exact ⟨hB.trans hA, tA ++ tB, by rw [htB, htA, List.append_assoc]⟩

theorem takeWhile_all_eq (p : Char → Bool) (xs : List Char) (h : xs.all p = true) :
    xs.takeWhile p = xs ∧ xs.dropWhile p = [] := by
  induction xs with
  | nil => simp
  | cons x xs ih =>
    simp only [List.all_cons, Bool.and_eq_true] at h
    simp [List.takeWhile_cons, List.dropWhile_cons, h.1, (ih h.2).1, (ih h.2).2]

theorem takeWhile_append_head_false (p : Char → Bool) (xs : List Char) (d : Char)
    (ds : List Char) (hxs : xs.all p = true) (hd : p d = false) :
    (xs ++ d :: ds).takeWhile p = xs ∧ (xs ++ d :: ds).dropWhile p = d :: ds := by
  induction xs with
  | nil => simp [List.takeWhile_cons, List.dropWhile_cons, hd]
  | cons x xs ih =>
    simp only [List.all_cons, Bool.and_eq_true] at hxs
    simp [List.takeWhile_cons, List.dropWhile_cons, hxs.1, (ih hxs.2).1, (ih hxs.2).2]

theorem alphaBranch (c : Char) (h : isAlphaChar c = true) :
    ¬(c = '\n' ∨ c = ' ' ∨ c = '\t') ∧ c ≠ '(' ∧ c ≠ ')' ∧ c ≠ '+' ∧ c ≠ '-' ∧
      c ≠ '*' ∧ c ≠ '/' ∧ c ≠ ',' ∧ isNumberChar c = false := by
  refine ⟨?_, ?_, ?_, ?_, ?_, ?_, ?_, ?_, ?_⟩
  · rintro (rfl | rfl | rfl) <;> exact absurd h (by decide)
  · rintro rfl; exact absurd h (by decide)
  · rintro rfl; exact absurd h (by decide)
  · rintro rfl; exact absurd h (by decide)
  · rintro rfl; exact absurd h (by decide)
  · rintro rfl; exact absurd h (by decide)
  · rintro rfl; exact absurd h (by decide)
  · rintro rfl; exact absurd h (by decide)
  · cases hnc : isNumberChar c
    · rfl
    · exfalso
      simp only [isAlphaChar, Bool.or_eq_true, Bool.and_eq_true, decide_eq_true_eq] at h
      simp only [isNumberChar, Bool.and_eq_true, decide_eq_true_eq] at hnc
      rcases h with ⟨h1, h2⟩ | ⟨h1, h2⟩ <;> omega

theorem not_alpha_of_digit (c : Char) (h : isNumberChar c = true) : isAlphaChar c = false := by
  cases ha : isAlphaChar c
  · rfl
  · exfalso
    simp only [isAlphaChar, Bool.or_eq_true, Bool.and_eq_true, decide_eq_true_eq] at ha
    simp only [isNumberChar, Bool.and_eq_true, decide_eq_true_eq] at h
    rcases ha with ⟨h1, h2⟩ | ⟨h1, h2⟩ <;> omega

theorem toLowerChar_digit (c : Char) (h : isNumberChar c = true) : toLowerChar c = c := by
  simp only [isNumberChar, Bool.and_eq_true, decide_eq_true_eq] at h
  simp only [toLowerChar]
  rw [if_neg]
  omega

theorem funcLookup_false_of_digit (lex : List Char) (d : Char) (hd : d ∈ lex)
    (hdig : isNumberChar d = true) :
    decide (String.mk (lex.map toLowerChar) ∈ FUNCTIONS) = false := by
  cases hdec : decide (String.mk (lex.map toLowerChar) ∈ FUNCTIONS)
  · rfl
  · exfalso
    have hmem := of_decide_eq_true hdec
    have hall : ∀ f ∈ FUNCTIONS, f.data.all isAlphaChar = true := by decide
    have h2 : (lex.map toLowerChar).all isAlphaChar = true := hall _ hmem
    have hdm : d ∈ lex.map toLowerChar := by
      rw [show d = toLowerChar d from (toLowerChar_digit d hdig).symm]
      exact List.mem_map_of_mem toLowerChar hd
    have := List.all_eq_true.mp h2 d hdm
    rw [not_alpha_of_digit d hdig] at this
    cases this

theorem tokenize_alpha_digit_run (L D : List Char)
    (hL : L ≠ []) (hLa : L.all isAlphaChar = true)
    (hD : D ≠ []) (hDa : D.all isNumberChar = true) :
    tokenize (String.mk (L ++ D)) =
      .ok [Token.mk .cellRef (String.mk (L ++ D))
        (some (.cellRef ⟨text_to_number (String.mk L), digitsVal D⟩))] := by
  obtain ⟨c, L2, rfl⟩ : ∃ c L2, L = c :: L2 := by
    cases L with
    | nil => exact absurd rfl hL
    | cons c L2 => exact ⟨c, L2, rfl⟩
  obtain ⟨d, D2, rfl⟩ : ∃ d D2, D = d :: D2 := by
    cases D with
    | nil => exact absurd rfl hD
    | cons d D2 => exact ⟨d, D2, rfl⟩
  have hLa2 := hLa
  simp only [List.all_cons, Bool.and_eq_true] at hLa2 hDa
  obtain ⟨hc, hL2a⟩ := hLa2
  obtain ⟨hd, hD2a⟩ := hDa
  obtain ⟨hws, hp1, hp2, hp3, hp4, hp5, hp6, hp7, hnum⟩ := alphaBranch c hc
  have hnum2 : ¬(isNumberChar c = true) := by simp [hnum]
  have hsplit1 := takeWhile_append_head_false isAlphaChar L2 d D2 hL2a (not_alpha_of_digit d hd)
  have hsplit2 := takeWhile_all_eq isNumberChar (d :: D2) (by simp [hd, hD2a])
  have hfunc : decide (String.mk ((c :: (L2 ++ d :: D2)).map toLowerChar) ∈ FUNCTIONS) = false :=
    funcLookup_false_of_digit _ d (by simp) hd
  simp only [tokenize, List.cons_append, List.length_cons]
  simp only [scanTokens]
  rw [if_neg hws, if_neg hp1, if_neg hp2, if_neg hp3, if_neg hp4, if_neg hp5, if_neg hp6,
    if_neg hp7, if_neg hnum2, if_pos hc]
  simp only [hsplit1.1, hsplit1.2, hsplit2.1, hsplit2.2, hd, hfunc, Bool.not_true,
    Bool.not_false, Bool.false_and, Bool.and_false, if_neg, Bool.false_eq_true,
    ite_false, scanTokens, Except.map, List.cons_append]

theorem evalPass_trace (rng : Nat → MFloat) (ec vc : Table) (fuel : Nat)
    (order : List (CellIndex × Cell)) :
    ∀ st st2, evalPass rng ec vc fuel order st = .ok st2 →
      (∃ t, st2.trace = st.trace ++ t) ∧
      ∀ ci e, (ci, Cell.expression e) ∈ order → ci ∈ st2.trace := by
  induction order with
  | nil =>
    intro st st2 h
    simp only [evalPass] at h
    cases h
    exact ⟨⟨[], by simp⟩, by simp⟩
  | cons head rest ih =>
    intro st st2 h
    obtain ⟨ci0, cell⟩ := head
    cases cell with
    | value s =>
      simp only [evalPass] at h
      obtain ⟨⟨t, ht⟩, hmem⟩ := ih st st2 h
      refine ⟨⟨t, ht⟩, ?_⟩
      intro ci e hin
      rcases List.mem_cons.mp hin with heq | hin2
      · cases heq
      · exact hmem ci e hin2
    | expression etext =>
      simp only [evalPass] at h
      split at h
      · cases h
      · split at h
        · cases h
        · split at h
          · cases h
          · rename_i v1 st1 h1
            obtain ⟨hA, tE, htE⟩ := (evalShape fuel).1 rng ec vc _ _ _ _ h1
            have htE2 : st1.trace = (st.trace ++ [ci0]) ++ tE := htE
            obtain ⟨⟨t2, ht2⟩, hmem⟩ := ih _ _ h
            have ht22 : st2.trace = st1.trace ++ t2 := ht2
            have htr : st2.trace = st.trace ++ ([ci0] ++ (tE ++ t2)) := by
              rw [ht22, htE2]
              simp [List.append_assoc]
            refine ⟨⟨[ci0] ++ (tE ++ t2), htr⟩, ?_⟩
            intro ci e hin
            rcases List.mem_cons.mp hin with heq | hin2
            · have hci : ci = ci0 := congrArg Prod.fst heq
              subst hci
              rw [htr]
              simp
            · exact hmem ci e hin2

/-- Claim C1, counterexample: scanning `B12` produces a CellRef token whose
`CellIndex` is `⟨row 1, column 12⟩` — the letter part is decoded into the
ROW field and the digit part into the COLUMN field, so the Address does not
have column = decode "B" and row = 12 as the claim states. -/
theorem c1_counterexample :
    tokenize "B12" = .ok [Token.mk .cellRef "B12" (some (.cellRef ⟨1, 12⟩))]
    ∧ text_to_number "B" = 1
    ∧ ¬((CellIndex.mk 1 12).column = text_to_number "B" ∧ (CellIndex.mk 1 12).row = 12) := by
  decide

/-- Claim C1, amended: for every alphabetic run immediately followed by a
digit run, the Scanner produces a single CellRef token whose Address has its
ROW component equal to the bijective-base-26 decoding of the letter part and
its COLUMN component equal to the plain base-10 value of the digit part
(so `B12` denotes row index 1, column 12). -/
theorem c1_amended (L D : List Char) (hL : L ≠ []) (hLa : L.all isAlphaChar = true)
    (hD : D ≠ []) (hDa : D.all isNumberChar = true) :
    tokenize (String.mk (L ++ D)) =
      .ok [Token.mk .cellRef (String.mk (L ++ D))
        (some (.cellRef ⟨text_to_number (String.mk L), digitsVal D⟩))] :=
  tokenize_alpha_digit_run L D hL hLa hD hDa

/-- Witness for the amended claim C1 at the concrete lexeme `B12`. -/
theorem c1_amended_witness :
    tokenize (String.mk ("B".data ++ "12".data)) =
      .ok [Token.mk .cellRef (String.mk ("B".data ++ "12".data))
        (some (.cellRef ⟨text_to_number (String.mk "B".data), digitsVal "12".data⟩))] :=
  c1_amended "B".data "12".data (by decide) (by decide) (by decide) (by decide)

/-- Claim C2, code evaluated at the failing inputs: the AddressCodec
round-trip fails because `number_to_text` is 1-based while `text_to_number`
is 0-based.  `number_to_text 0 = "Z"` (so the round trip at index 0 gives
25, not 0), index 25 renders as "Y" and index 26 as "Z" where the claim
requires "Z" and "AA", and `number_to_text (text_to_number "A") = "Z" ≠
"A"`. -/
theorem c2_roundtrip_fails :
    number_to_text 0 = "Z"
    ∧ text_to_number "Z" = 25
    ∧ text_to_number (number_to_text 0) ≠ 0
    ∧ number_to_text 25 = "Y"
    ∧ number_to_text 26 = "Z"
    ∧ text_to_number "A" = 0
    ∧ number_to_text (text_to_number "A") ≠ "A" := by
  decide

/-- Claim C3: the grid `x|=A1` (whose cell at address row 0, column 1 — the
cell that `A1` denotes — holds formula `A1`) fails with CycleError; the grid
`x|=B1` / `y|=A1` (a two-cell mutual cycle) fails with CycleError whose
carried path names both addresses under either of the two possible HashMap
iteration orders; and in general, resolving a CellRef to a formula cell
whose Address is already on the recursion-guard path fails with CycleError
carrying the ordered address path (which the Rust panic renders into its
message). -/
theorem c3_cycle_detection :
    runFile rngZero 64 "x|=A1" (assemble "x|=A1").1 = .error (.cycle [⟨0,1⟩, ⟨0,1⟩])
    ∧ (assemble "x|=B1\ny|=A1").1 =
        [(⟨0,1⟩, Cell.expression "B1"), (⟨1,1⟩, Cell.expression "A1")]
    ∧ runFile rngZero 64 "x|=B1\ny|=A1"
        [(⟨0,1⟩, Cell.expression "B1"), (⟨1,1⟩, Cell.expression "A1")]
        = .error (.cycle [⟨1,1⟩, ⟨0,1⟩, ⟨1,1⟩])
    ∧ runFile rngZero 64 "x|=B1\ny|=A1"
        [(⟨1,1⟩, Cell.expression "A1"), (⟨0,1⟩, Cell.expression "B1")]
        = .error (.cycle [⟨0,1⟩, ⟨1,1⟩, ⟨0,1⟩])
    ∧ (∀ rng ec vc fuel tok ci etext st,
        tok.literal = some (.cellRef ci) →
        lookupResult st.results ci = none →
        lookupCell vc ci = none →
        lookupCell ec ci = some (Cell.expression etext) →
        ci ∈ st.visiting →
        evaluate rng ec vc (fuel + 2) (.cellRefE tok) st =
          .error (.cycle (st.visiting ++ [st.visiting.headD ci]))) := by
  refine ⟨by decide, by decide, by decide, by decide, ?_⟩
  intro rng ec vc fuel tok ci etext st hlit hres hval hexp hvis
  simp only [evaluate, hlit, hres, hval, hexp]
  simp only [evalFormulaCell, if_pos hvis]

/-- Witness for claim C3's general cycle rule at a concrete self-cycle. -/
theorem c3_witness :
    evaluate rngZero [((⟨0,1⟩ : CellIndex), Cell.expression "A1")] [] 2
      (.cellRefE (Token.mk .cellRef "A1" (some (.cellRef ⟨0,1⟩))))
      ⟨[], [⟨0,1⟩], [], 0⟩ = .error (.cycle [⟨0,1⟩, ⟨0,1⟩]) :=
  c3_cycle_detection.2.2.2.2 rngZero [(⟨0,1⟩, Cell.expression "A1")] [] 0
    (Token.mk .cellRef "A1" (some (.cellRef ⟨0,1⟩))) ⟨0,1⟩ "A1" ⟨[], [⟨0,1⟩], [], 0⟩
    (by decide) (by decide) (by decide) (by decide) (by decide)

/-- Claim C4, counterexample: with the ascending row-major iteration order
the claim itself prescribes, the bulk pass over grid `=A1|=2` evaluates the
formula body of address (0,1) twice — once through the reference from cell
(0,0) (which memoizes it) and once again, unconditionally, at its own turn
of the loop — so an address's value is NOT computed at most once per run. -/
theorem c4_counterexample :
    (assemble "=A1|=2").1 = [(⟨0,0⟩, Cell.expression "A1"), (⟨0,1⟩, Cell.expression "2")]
    ∧ (runFile rngZero 64 "=A1|=2" (assemble "=A1|=2").1).map (fun p => p.2.trace)
        = .ok [⟨0,0⟩, ⟨0,1⟩, ⟨0,1⟩]
    ∧ ¬(([⟨0,0⟩, ⟨0,1⟩, ⟨0,1⟩] : List CellIndex).count ⟨0,1⟩ ≤ 1) := by
  decide

/-- Claim C4, amended: the bulk pass evaluates every Formula cell of the
iteration at least once (each cell's body is tokenized, parsed and evaluated
at its turn of the loop, without consulting the results cache for that
address first), so a formula cell already materialized through a reference
is evaluated again; the iteration order is the unspecified HashMap order,
not a guaranteed ascending one.  Concretely, on `=A1|=2` with ascending
order the evaluation trace is [(0,0), (0,1), (0,1)]. -/
theorem c4_amended :
    (∀ rng ec vc fuel order st st2, evalPass rng ec vc fuel order st = .ok st2 →
      ∀ ci e, (ci, Cell.expression e) ∈ order → ci ∈ st2.trace)
    ∧ (runFile rngZero 64 "=A1|=2" (assemble "=A1|=2").1).map (fun p => p.2.trace)
        = .ok [⟨0,0⟩, ⟨0,1⟩, ⟨0,1⟩] :=
  ⟨fun rng ec vc fuel order st st2 h =>
    (evalPass_trace rng ec vc fuel order st st2 h).2, by decide⟩

/-- Witness for the amended claim C4 on a concrete one-cell bulk pass. -/
theorem c4_amended_witness :
    (⟨0,0⟩ : CellIndex) ∈
      (⟨[(⟨0,0⟩, MFloat.finite 2 1)], [], [⟨0,0⟩], 0⟩ : EvalState).trace :=
  c4_amended.1 rngZero [(⟨0,0⟩, Cell.expression "2")] [] 8
    [(⟨0,0⟩, Cell.expression "2")] EvalState.init
    ⟨[(⟨0,0⟩, MFloat.finite 2 1)], [], [⟨0,0⟩], 0⟩ (by decide) ⟨0,0⟩ "2" (by decide)

/-- Claim C5, counterexample: the renderer emits `|` after EVERY field (so
each row carries a trailing `|`), which differs from the claimed format in
which fields are merely separated by `|`: on input `1|2` the program output
is `"1         |2         |\n"` while the claimed format gives
`"1         |2         \n"`. -/
theorem c5_counterexample :
    parse_file "1|2" = .ok "1         |2         |\n"
    ∧ claimSeparatorRender [["1", "2"]] = "1         |2         \n"
    ∧ parse_file "1|2" ≠ .ok (claimSeparatorRender [["1", "2"]]) := by
  decide

/-- Claim C5, amended: the output keeps the input's row/column shape with
every formula cell replaced by its evaluated numeric value as decimal text
and the raw formula source never emitted; every field is left-justified and
padded to a minimum width of 10 characters and FOLLOWED by `|` (so each row
ends with a trailing `|`); rows are separated by `\n` and the output ends
with a trailing newline.  Demonstrated end to end: a plain 1-row grid, and a
2-row grid whose formulas `2+3` and `A1*2` render as `5` and `10`. -/
theorem c5_amended :
    parse_file "1|2" = .ok "1         |2         |\n"
    ∧ parse_file "1|=2+3\n=A1*2|x" = .ok "1         |5         |\n10        |x         |\n" := by
  decide

/-- Claim C6: resolving a CellRef to a formula cell that is not on the
recursion-guard path pushes the address, scans and parses the formula text
fresh, evaluates it with the same cache and path, removes the address again
(the path returned equals its pre-call contents), memoizes the resulting
value under the address, and returns it; afterwards any reference to that
address is answered from the cache with the state untouched (no
re-evaluation). -/
theorem c6_formula_memoization
    (rng : Nat → MFloat) (ec vc : Table) (fuel : Nat) (tok : Token) (ci : CellIndex)
    (etext : String) (st : EvalState) (ts : List Token) (ast : Expr) (rest : List Token)
    (v : MFloat) (st1 : EvalState)
    (hlit : tok.literal = some (.cellRef ci))
    (hres : lookupResult st.results ci = none)
    (hval : lookupCell vc ci = none)
    (hexp : lookupCell ec ci = some (Cell.expression etext))
    (hvis : ci ∉ st.visiting)
    (hts : tokenize etext = .ok ts)
    (hast : parseTokens ts = .ok (ast, rest))
    (heval : evaluate rng ec vc fuel ast
        { st with visiting := st.visiting ++ [ci], trace := st.trace ++ [ci] } = .ok (v, st1)) :
    evaluate rng ec vc (fuel + 2) (.cellRefE tok) st =
        .ok (v, { st1 with visiting := st.visiting, results := insertResult st1.results ci v })
    ∧ lookupResult (insertResult st1.results ci v) ci = some v
    ∧ (∀ fuel2 st2, lookupResult st2.results ci = some v →
        evaluate rng ec vc (fuel2 + 1) (.cellRefE tok) st2 = .ok (v, st2)) := by
  have hfr : st1.visiting = st.visiting ++ [ci] :=
    ((evalShape fuel).1 rng ec vc ast _ v st1 heval).1
  refine ⟨?_, lookupResult_insert _ _ _, ?_⟩
  · simp only [evaluate, hlit, hres, hval, hexp]
    simp only [evalFormulaCell, if_neg hvis, hts, hast, heval]
    rw [hfr, removeFirst_append_self _ _ hvis]
  · intro fuel2 st2 hres2
    simp only [evaluate, hlit, hres2]

/-- Witness for claim C6: reference to the formula cell `2` at address
(0,1), starting from the empty state. -/
theorem c6_witness :
    evaluate rngZero [((⟨0,1⟩ : CellIndex), Cell.expression "2")] [] 10
      (.cellRefE (Token.mk .cellRef "A1" (some (.cellRef ⟨0,1⟩)))) EvalState.init =
      .ok (.finite 2 1,
        ⟨insertResult [] ⟨0,1⟩ (.finite 2 1), [], [⟨0,1⟩], 0⟩) :=
  (c6_formula_memoization rngZero [(⟨0,1⟩, Cell.expression "2")] [] 8
    (Token.mk .cellRef "A1" (some (.cellRef ⟨0,1⟩))) ⟨0,1⟩ "2" EvalState.init
    [Token.mk .number "2" (some (.float (.finite 2 1)))]
    (.literal (Token.mk .number "2" (some (.float (.finite 2 1))))) []
    (.finite 2 1) ⟨[], [⟨0,1⟩], [⟨0,1⟩], 0⟩
    (by decide) (by decide) (by decide) (by decide) (by decide) (by decide) (by rfl)
    (by rfl)).1

/-- Claim C7: a CellRef that resolves (cache missed) to a Value cell returns
the text parsed as a float, with 0.0 when parsing fails, and the state —
results cache included — is returned completely unchanged: value-cell
lookups are never memoized and are recomputed on each reference. -/
theorem c7_value_cell_lookup
    (rng : Nat → MFloat) (ec vc : Table) (fuel : Nat) (tok : Token) (ci : CellIndex)
    (s : String) (st : EvalState)
    (hlit : tok.literal = some (.cellRef ci))
    (hres : lookupResult st.results ci = none)
    (hval : lookupCell vc ci = some (Cell.value s)) :
    evaluate rng ec vc (fuel + 1) (.cellRefE tok) st =
      .ok ((parseF32 s).getD (.finite 0 1), st) := by
  simp only [evaluate, hlit, hres, hval]

/-- Witness for claim C7: the non-numeric value cell `x` evaluates to 0.0
without touching the state. -/
theorem c7_witness :
    evaluate rngZero [] [((⟨0,0⟩ : CellIndex), Cell.value "x")] 1
      (.cellRefE (Token.mk .cellRef "A0" (some (.cellRef ⟨0,0⟩)))) EvalState.init =
      .ok (.finite 0 1, EvalState.init) :=
  c7_value_cell_lookup rngZero [] [(⟨0,0⟩, Cell.value "x")] 0
    (Token.mk .cellRef "A0" (some (.cellRef ⟨0,0⟩))) ⟨0,0⟩ "x" EvalState.init
    (by decide) (by decide) (by decide)

/-- Claim C8, code evaluated at the failing input: the Scanner classifies
`SUM` as a Function token (its vocabulary check lower-cases the lexeme), but
the token keeps the raw spelling and the dispatch in
`FnExpression::evaluate` matches that raw spelling against the lower-case
builtin names only, so `SUM(1)` reaches the unknown-function-name
NotImplemented arm (`_ => todo!`) that the claim says is unreachable, while
`sum(1)` evaluates fine. -/
theorem c8_uppercase_function_dispatch :
    tokenize "SUM(1)" = .ok [Token.mk .function "SUM" none,
      Token.mk .openingParenthese "(" none,
      Token.mk .number "1" (some (.float (.finite 1 1))),
      Token.mk .closingParenthese ")" none]
    ∧ evalFormula "SUM(1)" = .error (.unknownFunction "SUM")
    ∧ evalFormula "sum(1)" = .ok (.finite 1 1) := by
  decide

/-- Claim C9: arithmetic follows the grammar's precedence and left
associativity — `=2+3*4` evaluates to 14, `=(2+3)*4` to 20 and `=-5+2` to
-3 (shown both on the formula evaluator and end to end through
`parse_file`). -/
theorem c9_arithmetic :
    evalFormula "2+3*4" = .ok (.finite 14 1)
    ∧ evalFormula "(2+3)*4" = .ok (.finite 20 1)
    ∧ evalFormula "-5+2" = .ok (.finite (-3) 1)
    ∧ parse_file "=2+3*4" = .ok "14        |\n" := by
  decide

/-- Claim C10: division follows IEEE semantics — `=1/0` evaluates to
positive infinity and `=0/0` to NaN, not to an error. -/
theorem c10_division_by_zero :
    evalFormula "1/0" = .ok (.inf false)
    ∧ evalFormula "0/0" = .ok .nan := by
  decide

end MiniExcel
